import Mathlib

/-!
# host.go: a shallow embedding of the remote-control host

The program talks to four outside parties: user32.dll (cursor, mouse, keyboard,
key-code lookup), the clipboard library, the screenshot library and the websocket
connection.  Every call that crosses that boundary is recorded, in program order,
in a list of `Call`s (or, for `main`, of `MainEvent`s); every answer that comes
back from outside is a parameter (`Platform`, `Screen`, the dial outcomes, the
inbound messages).  With that, each Go function becomes a total Lean function; a
run-time panic is one of its outcomes (`Panic`), since host.go recovers none.

Machine integers are `Int`/`Nat` with explicit wrapping.  A `float64` field of the
JSON payload is a rational number: every finite float64 is one, and the JSON
decoder never produces a NaN or an infinity.
-/

namespace Host

/-! ## Constants (host.go 49-63) -/

def MOUSEEVENTF_MOVE : Nat := 0x0001
def MOUSEEVENTF_LEFTDOWN : Nat := 0x0002
def MOUSEEVENTF_LEFTUP : Nat := 0x0004
def MOUSEEVENTF_RIGHTDOWN : Nat := 0x0008
def MOUSEEVENTF_RIGHTUP : Nat := 0x0010
def MOUSEEVENTF_WHEEL : Nat := 0x0800
def KEYEVENTF_EXTENDEDKEY : Nat := 0x0001
def KEYEVENTF_KEYUP : Nat := 0x0002
def WHEEL_DELTA : Int := 120

/-! ## The outside world -/

/-- One call from the host to the operating system or to a library, with the
arguments as they are passed (`uintptr` arguments are naturals below `2^64`). -/
inductive Call where
  /-- The call `procSetCursorPos.Call(x, y)`. -/
  | SetCursorPos (x y : Nat)
  /-- The call `procMouseEvent.Call(dwFlags, dx, dy, dwData, dwExtraInfo)`. -/
  | mouse_event (dwFlags dx dy dwData dwExtraInfo : Nat)
  /-- The call `procKeybdEvent.Call(bVk, bScan, dwFlags, dwExtraInfo)`. -/
  | keybd_event (bVk bScan dwFlags dwExtraInfo : Nat)
  /-- The call `procVkKeyScanA.Call(ch)`. -/
  | VkKeyScanA (ch : Nat)
  /-- The call `clipboard.WriteAll(text)`. -/
  | WriteAll (text : String)
  /-- The call `time.Sleep(ms * time.Millisecond)`. -/
  | Sleep (ms : Nat)
  deriving DecidableEq, Repr

/-- What the platform answers.  Nothing is assumed about any of the fields. -/
structure Platform where
  /-- The first return value of `procVkKeyScanA.Call(ch)`. -/
  VkKeyScanA : Nat → Nat
  /-- The function `unicode.ToLower` on the runes above ASCII. -/
  unicodeToLower : Char → Char
  /-- The result of `int32(f)` when the truncated `f` does not fit 32 bits
  (the Go specification leaves it to the implementation). -/
  int32OfHuge : ℚ → Int
  /-- The result of `int(f)` when the truncated `f` does not fit 64 bits. -/
  intOfHuge : ℚ → Int

/-! ## Machine arithmetic -/

/-- A mathematical integer reduced to the signed 32-bit value Go keeps. -/
def wrapInt32 (x : Int) : Int := (x + 2 ^ 31) % 2 ^ 32 - 2 ^ 31

/-- A mathematical integer reduced to the signed 64-bit value Go keeps. -/
def wrapInt64 (x : Int) : Int := (x + 2 ^ 63) % 2 ^ 64 - 2 ^ 63

/-- The conversion `uintptr(x)` of a signed integer on a 64-bit target: the
two-complement bit pattern, read as a natural number. -/
def uintptr (x : Int) : Nat := (x % 2 ^ 64).toNat

/-- A float64 with its fraction discarded (truncation towards zero). -/
def truncate (f : ℚ) : Int := Int.tdiv f.num f.den

/-- The conversion `int32(f)` of a float64. -/
def toInt32 (P : Platform) (f : ℚ) : Int :=
  if -(2 : Int) ^ 31 ≤ truncate f ∧ truncate f < 2 ^ 31 then truncate f
  else wrapInt32 (P.int32OfHuge f)

/-- The conversion `int(f)` of a float64 (`int` has 64 bits on the amd64 target). -/
def toInt (P : Platform) (f : ℚ) : Int :=
  if -(2 : Int) ^ 63 ≤ truncate f ∧ truncate f < 2 ^ 63 then truncate f
  else wrapInt64 (P.intOfHuge f)

/-! ## Strings -/

/-- The function `unicode.ToLower` on one rune: below 0x80 only `A`..`Z` move. -/
def toLowerRune (P : Platform) (c : Char) : Char :=
  if c.toNat < 0x80 then c.toLower else P.unicodeToLower c

/-- The function `strings.ToLower`. -/
def ToLower (P : Platform) (s : String) : String := ⟨s.data.map (toLowerRune P)⟩

/-- The first byte of the UTF-8 encoding of a rune. -/
def utf8LeadByte (c : Char) : Nat :=
  let v := c.toNat
  if v < 0x80 then v
  else if v < 0x800 then 0xC0 + v / 0x40
  else if v < 0x10000 then 0xE0 + v / 0x1000
  else 0xF0 + v / 0x40000

/-! ## Mouse and keyboard wrappers (host.go 72-112) -/

def setCursorPos (x y : Int) : List Call :=
  [Call.SetCursorPos (uintptr x) (uintptr y)]

def mouseClick (P : Platform) (button : String) : List Call :=
  if ToLower P button = "right" then
    [Call.mouse_event MOUSEEVENTF_RIGHTDOWN 0 0 0 0, Call.Sleep 8,
     Call.mouse_event MOUSEEVENTF_RIGHTUP 0 0 0 0]
  else
    [Call.mouse_event MOUSEEVENTF_LEFTDOWN 0 0 0 0, Call.Sleep 8,
     Call.mouse_event MOUSEEVENTF_LEFTUP 0 0 0 0]

def mouseDoubleClick (P : Platform) : List Call :=
  mouseClick P "left" ++ [Call.Sleep 50] ++ mouseClick P "left"

/-- The argument `delta` is an `int32`; the product is taken in `int32` and wraps. -/
def mouseWheel (delta : Int) : List Call :=
  [Call.mouse_event MOUSEEVENTF_WHEEL 0 0 (uintptr (wrapInt32 (delta * WHEEL_DELTA))) 0]

def keyDown (vk : Nat) : List Call := [Call.keybd_event vk 0 0 0]

def keyUp (vk : Nat) : List Call := [Call.keybd_event vk 0 KEYEVENTF_KEYUP 0]

def keyTap (vk : Nat) : List Call := keyDown vk ++ [Call.Sleep 10] ++ keyUp vk

/-- The key code of a key name, with the calls made to find it (host.go 114-152). -/
def vkFromKeyName (P : Platform) (k : String) : Nat × List Call :=
  let k := ToLower P k
  if k = "shift" then (0x10, [])
  else if k = "control" ∨ k = "ctrl" then (0x11, [])
  else if k = "alt" then (0x12, [])
  else if k = "enter" then (0x0D, [])
  else if k = "backspace" then (0x08, [])
  else if k = "tab" then (0x09, [])
  else if k = "escape" ∨ k = "esc" then (0x1B, [])
  else if k = "left" ∨ k = "arrowleft" then (0x25, [])
  else if k = "up" ∨ k = "arrowup" then (0x26, [])
  else if k = "right" ∨ k = "arrowright" then (0x27, [])
  else if k = "down" ∨ k = "arrowdown" then (0x28, [])
  else if k = "delete" then (0x2E, [])
  else if k = "space" then (0x20, [])
  else
    match k.data with
    | c :: _ =>
      let c := utf8LeadByte c
      let ret := P.VkKeyScanA c
      let vk := (ret &&& 0xff) % 256
      (vk, [Call.VkKeyScanA c])
    | [] => (0, [])

/-! ## Protocol structures (host.go 156-177) -/

structure RegisterMsg where
  Type_ : String
  Id : String
  deriving DecidableEq, Repr

structure ControlPayload where
  Type_ : String := ""
  Action : String := ""
  X : ℚ := 0
  Y : ℚ := 0
  Button : String := ""
  Delta : ℚ := 0
  Key : String := ""
  Text : String := ""
  /-- The `extra` object, one entry per key with the raw JSON text of its value. -/
  Extra : List (String × String) := []
  deriving DecidableEq

structure ControlMsg where
  Type_ : String := ""
  HostId : String := ""
  Payload : ControlPayload := {}
  deriving DecidableEq

/-! ## Dispatch of one command (host.go 215-258) -/

def processControl (P : Platform) (p : ControlPayload) : List Call :=
  if p.Type_ = "mouse" then
    if p.Action = "move" then setCursorPos (toInt P p.X) (toInt P p.Y)
    else if p.Action = "click" then
      let btn := if p.Button = "" then "left" else p.Button
      mouseClick P btn
    else if p.Action = "double" then mouseDoubleClick P
    else if p.Action = "wheel" then mouseWheel (toInt32 P p.Delta)
    else []
  else if p.Type_ = "key" then
    if p.Action = "tap" then
      let r := vkFromKeyName P p.Key
      r.2 ++ (if r.1 ≠ 0 then keyTap r.1 else [])
    else if p.Action = "down" then
      let r := vkFromKeyName P p.Key
      r.2 ++ (if r.1 ≠ 0 then keyDown r.1 else [])
    else if p.Action = "up" then
      let r := vkFromKeyName P p.Key
      r.2 ++ (if r.1 ≠ 0 then keyUp r.1 else [])
    else []
  else if p.Type_ = "clipboard" then
    if p.Action = "set" then [Call.WriteAll p.Text]
    else if p.Action = "get" then []
    else []
  else []

/-! ## Panics -/

/-- A Go run-time panic (or fatal run-time error); none is recovered anywhere in
host.go, so each ends the goroutine it happens in and with it the process. -/
inductive Panic where
  /-- The panic `integer divide by zero`. -/
  | divideByZero
  /-- The panic `non-positive interval for NewTicker`. -/
  | nonPositiveInterval
  /-- The panic `image: NewRGBA Rectangle has huge or negative dimensions`. -/
  | hugeDimensions
  /-- The failure of `make([]uint8, n)`: `makeslice: len out of range`, or the
  run-time out of memory. -/
  | makeslice
  deriving DecidableEq, Repr

/-- How a call of a function with the results `(value, error)` ends. -/
inductive Outcome (α : Type) where
  /-- The function returns the value and a nil error. -/
  | ok (value : α)
  /-- The function returns a nil value and the error. -/
  | err (err : String)
  /-- The function does not return: it panics. -/
  | panicked (p : Panic)

/-! ## Rectangles and rasters (Go package `image`, as far as host.go uses it) -/

structure Point where
  X : Int
  Y : Int
  deriving DecidableEq, Repr

structure Rectangle where
  Min : Point
  Max : Point
  deriving DecidableEq, Repr

/-- The zero rectangle, the value of `var full image.Rectangle`. -/
def ZR : Rectangle := ⟨⟨0, 0⟩, ⟨0, 0⟩⟩

/-- The function `image.Rect`: the corners are put in order. -/
def Rect (x0 y0 x1 y1 : Int) : Rectangle :=
  ⟨⟨if x0 > x1 then x1 else x0, if y0 > y1 then y1 else y0⟩,
   ⟨if x0 > x1 then x0 else x1, if y0 > y1 then y0 else y1⟩⟩

/-- The method `Rectangle.Empty`. -/
def Rectangle.Empty (r : Rectangle) : Bool :=
  decide (r.Min.X ≥ r.Max.X) || decide (r.Min.Y ≥ r.Max.Y)

/-- The method `Rectangle.Union`. -/
def Rectangle.Union (r s : Rectangle) : Rectangle :=
  if r.Empty then s
  else if s.Empty then r
  else
    ⟨⟨if r.Min.X > s.Min.X then s.Min.X else r.Min.X,
      if r.Min.Y > s.Min.Y then s.Min.Y else r.Min.Y⟩,
     ⟨if r.Max.X < s.Max.X then s.Max.X else r.Max.X,
      if r.Max.Y < s.Max.Y then s.Max.Y else r.Max.Y⟩⟩

/-- The method `Rectangle.In`: every point of `r` is a point of `s`. -/
def Rectangle.In (r s : Rectangle) : Bool :=
  if r.Empty then true
  else decide (s.Min.X ≤ r.Min.X) && decide (r.Max.X ≤ s.Max.X) &&
       decide (s.Min.Y ≤ r.Min.Y) && decide (r.Max.Y ≤ s.Max.Y)

/-- The method `Point.In`. -/
def Point.In (p : Point) (r : Rectangle) : Bool :=
  decide (r.Min.X ≤ p.X) && decide (p.X < r.Max.X) &&
  decide (r.Min.Y ≤ p.Y) && decide (p.Y < r.Max.Y)

/-- A colour, as the packed 32-bit value of `color.RGBA`. -/
abbrev Color := Nat

/-- The type `image.RGBA`: its bounds and the colour of each pixel. -/
structure RGBA where
  Rect : Rectangle
  Pix : Int → Int → Color

/-- The method `Rectangle.Dx`, the width, computed in `int`. -/
def Rectangle.Dx (r : Rectangle) : Int := wrapInt64 (r.Max.X - r.Min.X)

/-- The method `Rectangle.Dy`, the height, computed in `int`. -/
def Rectangle.Dy (r : Rectangle) : Int := wrapInt64 (r.Max.Y - r.Min.Y)

/-- The function `image.mul3NonNeg`: the product `x*y*z` of three `int`s, or `-1`
when an argument is negative or the product overflows `int`.  `bits.Mul64` gives
the high and the low 64 bits of a product. -/
def mul3NonNeg (x y z : Int) : Int :=
  if x < 0 ∨ y < 0 ∨ z < 0 then -1
  else
    let hi := (x * y) / 2 ^ 64
    let lo := (x * y) % 2 ^ 64
    if hi ≠ 0 then -1
    else
      let hi := (lo * z) / 2 ^ 64
      let lo := (lo * z) % 2 ^ 64
      if hi ≠ 0 then -1
      else
        let a := wrapInt64 lo
        if a < 0 then -1 else a

/-- The function `image.pixelBufferLength` for four bytes per pixel: the length of
the pixel buffer, or the panic on huge or negative dimensions. -/
def pixelBufferLength (r : Rectangle) : Except Panic Int :=
  let totalLength := mul3NonNeg 4 r.Dx r.Dy
  if totalLength < 0 then .error Panic.hugeDimensions else .ok totalLength

/-- A raster with the given bounds, all pixels zero. -/
def blank (r : Rectangle) : RGBA := ⟨r, fun _ _ => 0⟩

/-- The function `image.NewRGBA`: a raster with the given bounds, all pixels zero;
it panics when the buffer length overflows `int` and when `make` cannot serve the
buffer.  `makeLimit` is the greatest length `make([]uint8, n)` succeeds on at this
moment. -/
def NewRGBA (makeLimit : Nat) (r : Rectangle) : Except Panic RGBA :=
  match pixelBufferLength r with
  | .error p => .error p
  | .ok n => if makeLimit < n.toNat then .error Panic.makeslice else .ok (blank r)

/-- The method `RGBA.At`: the zero colour outside the bounds. -/
def RGBA.At (img : RGBA) (x y : Int) : Color :=
  if Point.In ⟨x, y⟩ img.Rect then img.Pix x y else 0

/-- The method `RGBA.Set`: nothing happens outside the bounds. -/
def RGBA.Set (img : RGBA) (x y : Int) (c : Color) : RGBA :=
  if Point.In ⟨x, y⟩ img.Rect then
    ⟨img.Rect, fun x1 y1 => if x1 = x ∧ y1 = y then c else img.Pix x1 y1⟩
  else img

/-- The integers `lo, lo+1, ..., hi-1` that a `for v := lo; v < hi; v++` loop visits. -/
def intRange (lo hi : Int) : List Int :=
  (List.range (hi - lo).toNat).map (fun i => lo + (i : Int))

/-! ## Screen capture (host.go 181-211) -/

/-- What the screenshot and jpeg libraries and the run-time answer during one
capture. -/
structure Screen where
  /-- The greatest length `make([]uint8, n)` succeeds on (free memory, and never
  more than the `maxAlloc` of the run-time). -/
  makeLimit : Nat
  /-- The bounds of the active displays, by display index. -/
  displays : List Rectangle
  /-- The function `screenshot.CaptureRect`. -/
  CaptureRect : Rectangle → Except String RGBA
  /-- The function `jpeg.Encode` into a fresh buffer: the bytes, or the error. -/
  Encode : RGBA → Int → Except String (List Nat)

/-- The function `screenshot.NumActiveDisplays`. -/
def Screen.NumActiveDisplays (S : Screen) : Nat := S.displays.length

/-- The function `screenshot.GetDisplayBounds`. -/
def Screen.GetDisplayBounds (S : Screen) (i : Nat) : Rectangle := S.displays.getD i ZR

/-- The bounds a display at `(x, y)` of size `w` by `h` is reported with. -/
def displayBounds (x y w h : Int) : Rectangle := Rect x y (x + w) (y + h)

/-- Lines 187-190: the loop that builds the union rectangle. -/
def unionLoop (S : Screen) (n : Nat) : Rectangle :=
  (List.range n).foldl (fun full i => full.Union (S.GetDisplayBounds i)) ZR

/-- Lines 200-204: the pixels of one captured display copied to their place. -/
def copyPixels (img bi : RGBA) (rect : Rectangle) : RGBA :=
  (intRange rect.Min.Y rect.Max.Y).foldl
    (fun img y => (intRange rect.Min.X rect.Max.X).foldl
      (fun img x => img.Set x y (bi.At (x - rect.Min.X) (y - rect.Min.Y))) img) img

/-- Lines 193-205: the loop over the displays `i, i+1, ...` given as a list; the
first failing capture ends it with that error. -/
def drawLoop (S : Screen) : List Nat → RGBA → Except String RGBA
  | [], img => .ok img
  | i :: rest, img =>
    let rect := S.GetDisplayBounds i
    match S.CaptureRect rect with
    | .error err => .error err
    | .ok bi => drawLoop S rest (copyPixels img bi rect)

/-- Line 192: the call `image.NewRGBA(full)`, which gives the raster `img` that
`captureAllMonitorsJPEG` allocates, or panics. -/
def allocated (S : Screen) : Except Panic RGBA :=
  NewRGBA S.makeLimit (unionLoop S S.NumActiveDisplays)

def captureAllMonitorsJPEG (S : Screen) (quality : Int) : Outcome (List Nat) :=
  let n := S.NumActiveDisplays
  if n = 0 then .err "no displays detected"
  else
    match allocated S with
    | .error p => .panicked p
    | .ok img =>
      match drawLoop S (List.range n) img with
      | .error err => .err err
      | .ok img =>
        match S.Encode img quality with
        | .error err => .err err
        | .ok buf => .ok buf

/-! ## The connect loop and the start of `main` (host.go 277-366) -/

/-- The outcome of one `websocket.DefaultDialer.Dial`: a connection and a nil
error, or a nil connection and an error. -/
inductive DialResult where
  | ok (conn : Nat)
  | fail (err : String)
  deriving DecidableEq, Repr

/-- What `main` does, in order (the `log.Printf` lines are left out). -/
inductive MainEvent where
  /-- The call of `Dial` in the given attempt. -/
  | Dial (attempt : Nat)
  /-- The call `time.Sleep(ms * time.Millisecond)`. -/
  | Sleep (ms : Nat)
  /-- The call `log.Fatalf("could not connect to server: %v", err)`, which ends the process. -/
  | Fatalf (err : String)
  /-- The call `conn.WriteJSON(reg)`. -/
  | WriteJSON (conn : Nat) (reg : RegisterMsg)
  /-- The call `clipboard.WriteAll(hostID)`. -/
  | WriteAll (text : String)
  /-- The popup `go MessageBox(title, text)`. -/
  | goMessageBox (title text : String)
  /-- The reader goroutine is started. -/
  | goReader (conn : Nat)
  /-- The capture goroutine is started. -/
  | goCapture (conn : Nat) (fps quality : Int)
  /-- The control goroutine is started. -/
  | goControl
  deriving DecidableEq, Repr

/-- The variables `conn` and `err` of `main`. -/
structure ConnVars where
  conn : Option Nat
  err : Option String
  deriving DecidableEq, Repr

/-- Lines 279-286: the loop `for attempt := 1; attempt <= 6; attempt++`, entered
at `attempt` with `left` iterations to go. -/
def dialLoop (dial : Nat → DialResult) : Nat → Nat → ConnVars → ConnVars × List MainEvent
  | 0, _, v => (v, [])
  | left + 1, attempt, _ =>
    match dial attempt with
    | .ok c => (⟨some c, none⟩, [MainEvent.Dial attempt])
    | .fail e =>
      let r := dialLoop dial left (attempt + 1) ⟨none, some e⟩
      (r.1, [MainEvent.Dial attempt, MainEvent.Sleep 3000] ++ r.2)

/-- Lines 293-366 of `main`, once it holds the connection `conn`: register, copy
the host id to the clipboard (with a popup when that worked, `clipErr` being the
error of `clipboard.WriteAll`), start the three goroutines. -/
def afterConnect (conn : Nat) (hostID : String) (clipErr : Option String)
    (fps quality : Int) : List MainEvent :=
  [MainEvent.WriteJSON conn ⟨"register_host", hostID⟩, MainEvent.WriteAll hostID] ++
  (if clipErr = none then [MainEvent.goMessageBox "Host ID copiado" ("Host ID: " ++ hostID)]
   else []) ++
  [MainEvent.goReader conn, MainEvent.goCapture conn fps quality, MainEvent.goControl]

/-- Lines 277-366 of `main`: connect, register, start the goroutines.  The url has
been parsed (`err` is nil), `hostID` is the fresh uuid. -/
def main (dial : Nat → DialResult) (hostID : String) (clipErr : Option String)
    (fps quality : Int) : List MainEvent :=
  let r := dialLoop dial 6 1 ⟨none, none⟩
  match r.1.conn with
  | none => r.2 ++ [MainEvent.Fatalf (r.1.err.getD "<nil>")]
  | some conn => r.2 ++ afterConnect conn hostID clipErr fps quality

/-! ## The reader goroutine (host.go 314-335) -/

def TextMessage : Int := 1

def BinaryMessage : Int := 2

/-- What one `conn.ReadMessage()` returns. -/
inductive Inbound where
  | error (err : String)
  | message (mt : Int) (msg : List Nat)
  deriving DecidableEq, Repr

/-- One turn of the `for` loop: `none` when the goroutine returns, otherwise the
payloads sent on `controlChan` in this turn.  `Unmarshal` is `json.Unmarshal`
into a fresh `ControlMsg`. -/
def readerTurn (Unmarshal : List Nat → Except String ControlMsg) :
    Inbound → Option (List ControlPayload)
  | .error _ => none
  | .message mt msg =>
    if mt = TextMessage then
      match Unmarshal msg with
      | .error _ => some []
      | .ok cmsg => if cmsg.Type_ = "control" then some [cmsg.Payload] else some []
    else some []

/-- The reader goroutine over the messages the connection delivers: the payloads
it sends on `controlChan`, in order, and whether it has returned. -/
def reader (Unmarshal : List Nat → Except String ControlMsg) :
    List Inbound → List ControlPayload × Bool
  | [] => ([], false)
  | m :: rest =>
    match readerTurn Unmarshal m with
    | none => ([], true)
    | some out => let r := reader Unmarshal rest; (out ++ r.1, r.2)

/-! ## The control goroutine and its queue (host.go 311, 329, 361-366) -/

/-- The capacity of `controlChan`. -/
def controlChanCap : Nat := 50

/-- The reader and the control goroutine around `controlChan`. -/
structure Pipeline where
  /-- The payloads the reader has still to send, in arrival order. -/
  arriving : List ControlPayload
  /-- The buffer of `controlChan`, oldest first. -/
  controlChan : List ControlPayload
  /-- The calls the control goroutine has made so far. -/
  calls : List Call

/-- The goroutine the scheduler lets run next. -/
inductive Turn where
  | reader
  | control
  deriving DecidableEq, Repr

/-- One scheduling turn.  The reader sends its next payload unless the buffer is
full (then it stays blocked); the control goroutine receives the oldest payload and
runs `processControl` on it, unless the buffer is empty (then it stays blocked). -/
def Pipeline.step (P : Platform) (s : Pipeline) : Turn → Pipeline
  | .reader =>
    match s.arriving with
    | [] => s
    | p :: rest =>
      if s.controlChan.length < controlChanCap then ⟨rest, s.controlChan ++ [p], s.calls⟩
      else s
  | .control =>
    match s.controlChan with
    | [] => s
    | p :: rest => ⟨s.arriving, rest, s.calls ++ processControl P p⟩

/-- The pipeline after a sequence of scheduling turns. -/
def Pipeline.run (P : Platform) (s : Pipeline) (turns : List Turn) : Pipeline :=
  turns.foldl (Pipeline.step P) s

/-- The pipeline when the commands `cs` are about to arrive. -/
def Pipeline.start (cs : List ControlPayload) : Pipeline := ⟨cs, [], []⟩

/-! ## The capture goroutine (host.go 338-359) -/

/-- The constant `time.Millisecond`, in nanoseconds. -/
def Millisecond : Int := 1000000

/-- The argument of `time.NewTicker` in line 339:
`time.Duration(1000/(*fps)) * time.Millisecond`, in nanoseconds. -/
def tickPeriod (fps : Int) : Except Panic Int :=
  if fps = 0 then .error Panic.divideByZero
  else .ok (wrapInt64 (wrapInt64 (Int.tdiv 1000 fps) * Millisecond))

/-- The function `time.NewTicker`, which panics on a non-positive interval. -/
def NewTicker (d : Int) : Except Panic Int :=
  if d ≤ 0 then .error Panic.nonPositiveInterval else .ok d

/-- Line 339: the period of the ticker the capture goroutine runs on. -/
def captureTicker (fps : Int) : Except Panic Int :=
  match tickPeriod fps with
  | .error e => .error e
  | .ok d => NewTicker d

/-- The case the `select` of one loop turn takes: the stop signal, or a tick, with
the screen at that moment and the error `conn.WriteMessage` answers a write with. -/
inductive Selected where
  | stopCapture
  | tick (S : Screen) (writeErr : Option String)

/-- How the capture goroutine stands. -/
inductive CaptureState where
  /-- The goroutine is in its loop, at the `select`. -/
  | waiting
  /-- The goroutine returned on the stop signal. -/
  | stopped
  /-- The goroutine returned on a failed write of a frame. -/
  | writeFailed
  /-- The goroutine panicked, which ends the process. -/
  | panicked
  deriving DecidableEq, Repr

/-- One turn of the capture loop: the binary frames written to the connection in
this turn and how the goroutine stands afterwards. -/
def captureTurn (quality : Int) : Selected → List (List Nat) × CaptureState
  | .stopCapture => ([], CaptureState.stopped)
  | .tick S writeErr =>
    match captureAllMonitorsJPEG S quality with
    | .panicked _ => ([], CaptureState.panicked)
    | .err _ => ([], CaptureState.waiting)
    | .ok frame =>
      match writeErr with
      | some _ => ([], CaptureState.writeFailed)
      | none => ([frame], CaptureState.waiting)

/-- The capture goroutine over the cases its `select` takes, turn by turn. -/
def captureLoop (quality : Int) : List Selected → List (List Nat) × CaptureState
  | [] => ([], CaptureState.waiting)
  | e :: rest =>
    match captureTurn quality e with
    | (out, CaptureState.waiting) => let r := captureLoop quality rest; (out ++ r.1, r.2)
    | (out, st) => (out, st)

/-! ## Vocabulary of the specification -/

/-- A platform that answers zero to everything; it serves as a concrete input. -/
def idlePlatform : Platform := ⟨fun _ => 0, fun c => c, fun _ => 0, fun _ => 0⟩

/-- The string `s` spells `name` in upper-case and lower-case letters: putting the
letters `A`..`Z` of `s` in lower case gives `name`. -/
def Spells (s name : String) : Prop := s.data.map Char.toLower = name.data

/-- The fixed table of key names and key codes, as the specification lists it. -/
def keyTable : List (String × Nat) :=
  [("shift", 0x10), ("control", 0x11), ("ctrl", 0x11), ("alt", 0x12), ("enter", 0x0D),
   ("backspace", 0x08), ("tab", 0x09), ("escape", 0x1B), ("esc", 0x1B),
   ("left", 0x25), ("arrowleft", 0x25), ("up", 0x26), ("arrowup", 0x26),
   ("right", 0x27), ("arrowright", 0x27), ("down", 0x28), ("arrowdown", 0x28),
   ("delete", 0x2E), ("space", 0x20)]

/-- The pairs of command type and action the dispatcher knows. -/
def Recognised (type action : String) : Prop :=
  (type = "mouse" ∧ action ∈ ["move", "click", "double", "wheel"]) ∨
  (type = "key" ∧ action ∈ ["tap", "down", "up"]) ∨
  (type = "clipboard" ∧ action ∈ ["set", "get"])

/-- The events of `k` failed attempts, the first of them numbered `attempt`: a dial
and a sleep of three seconds each. -/
def retriesFrom (attempt : Nat) : Nat → List MainEvent
  | 0 => []
  | k + 1 => [MainEvent.Dial attempt, MainEvent.Sleep 3000] ++ retriesFrom (attempt + 1) k

/-- The events of `k` failed attempts, numbered from 1. -/
def retries (k : Nat) : List MainEvent := retriesFrom 1 k

/-- The event sends the registration or starts the reader, the capture or the
control goroutine. -/
def MainEvent.startsSession : MainEvent → Bool
  | .WriteJSON _ _ => true
  | .goReader _ => true
  | .goCapture _ _ _ => true
  | .goControl => true
  | _ => false

/-- The dial attempts among the events of `main`. -/
def dialAttempts (es : List MainEvent) : List MainEvent :=
  es.filter (fun e => match e with
    | MainEvent.Dial _ => true
    | _ => false)

/-- What the specification has the read loop forward for one message: the payload
of a text frame that parses as an envelope of type `control`, and nothing for any
other message. -/
def forwarded (Unmarshal : List Nat → Except String ControlMsg) : Inbound → List ControlPayload
  | .error _ => []
  | .message mt msg =>
    if mt = TextMessage then
      match Unmarshal msg with
      | .ok cmsg => if cmsg.Type_ = "control" then [cmsg.Payload] else []
      | .error _ => []
    else []

/-- The message is a read error. -/
def Inbound.isError : Inbound → Bool
  | .error _ => true
  | .message _ _ => false

/-- A decoder for concrete inputs: the bytes `[1]` are a control envelope with a
wheel command, the bytes `[2]` an envelope of another type, all else is malformed. -/
def sampleUnmarshal (msg : List Nat) : Except String ControlMsg :=
  if msg = [1] then .ok { Type_ := "control", Payload := { Type_ := "mouse", Action := "wheel" } }
  else if msg = [2] then .ok { Type_ := "hello" }
  else .error "invalid character"

/-- The schedule that lets the reader and the control goroutine run in turn, `n`
times each. -/
def alternate : Nat → List Turn
  | 0 => []
  | n + 1 => Turn.reader :: Turn.control :: alternate n

/-- The work the pipeline has left: two steps for a payload still to arrive, one
for a payload in the queue. -/
def Pipeline.remaining (s : Pipeline) : Nat := 2 * s.arriving.length + s.controlChan.length

/-- The bounding rectangle of a rectangle and a list of further ones, as the
specification words it: the minimum of the left and of the top edges, the maximum of
the right and of the bottom edges. -/
def boundingBox (r : Rectangle) (rs : List Rectangle) : Rectangle :=
  ⟨⟨rs.foldl (fun m s => min m s.Min.X) r.Min.X, rs.foldl (fun m s => min m s.Min.Y) r.Min.Y⟩,
   ⟨rs.foldl (fun m s => max m s.Max.X) r.Max.X, rs.foldl (fun m s => max m s.Max.Y) r.Max.Y⟩⟩

/-- A screen for concrete inputs: the given displays, 4 GiB for `make`, every
capture a blank raster of the size asked for, except that the capture of `broken`
fails; the encoder answers with the width and the height of the raster. -/
def sampleScreen (displays : List Rectangle) (broken : Option Rectangle) : Screen :=
  ⟨2 ^ 32, displays,
   fun rect => if some rect = broken then .error "BitBlt failed"
     else .ok (blank (Rect 0 0 (rect.Max.X - rect.Min.X) (rect.Max.Y - rect.Min.Y))),
   fun img _ => .ok [(img.Rect.Max.X - img.Rect.Min.X).toNat,
     (img.Rect.Max.Y - img.Rect.Min.Y).toNat]⟩

/-- Two displays that between them span the whole range of 32-bit coordinates; the
capture of the second one fails. -/
def hugeScreen : Screen :=
  sampleScreen [Rect (-2147483648) (-2147483648) 0 0, Rect 0 0 2147483647 2147483647]
    (some (Rect 0 0 2147483647 2147483647))

/-- The case ends the capture loop in one of the two ways the loop returns: it is
the stop signal, or a tick on which a frame was captured and the write of it failed. -/
def Selected.Ends (quality : Int) : Selected → Prop
  | .stopCapture => True
  | .tick S writeErr =>
    (∃ frame, captureAllMonitorsJPEG S quality = .ok frame) ∧ writeErr ≠ none

/-- The case is a tick on which the allocation of the raster panics. -/
def Selected.Panics : Selected → Prop
  | .stopCapture => False
  | .tick S _ => S.NumActiveDisplays ≠ 0 ∧ ∃ p, allocated S = .error p

/-- The length of the pixel buffer of a raster with the given bounds: four bytes
for each pixel. -/
def bufferLength (r : Rectangle) : Int := 4 * (r.Max.X - r.Min.X) * (r.Max.Y - r.Min.Y)

/-- The calls a key-name lookup may make: none, or one `VkKeyScanA`. -/
def LookupOnly (r : Nat × List Call) : Prop := r.2 = [] ∨ ∃ ch, r.2 = [Call.VkKeyScanA ch]

/-- The keyboard events among a sequence of calls. -/
def keyboardEvents (cs : List Call) : List Call :=
  cs.filter (fun c => match c with
    | Call.keybd_event _ _ _ _ => true
    | _ => false)


/-! ## Lemmas on machine arithmetic -/

theorem truncate_intCast (d : Int) : truncate (d : ℚ) = d := by
  simp [truncate]

theorem wrapInt32_of_fits (x : Int) (h : -(2 : Int) ^ 31 ≤ x ∧ x < 2 ^ 31) : wrapInt32 x = x := by
  unfold wrapInt32
  have : (x + 2 ^ 31) % 2 ^ 32 = x + 2 ^ 31 := by
    apply Int.emod_eq_of_lt <;> omega
  omega

theorem wrapInt64_of_fits (x : Int) (h : -(2 : Int) ^ 63 ≤ x ∧ x < 2 ^ 63) : wrapInt64 x = x := by
  unfold wrapInt64
  have : (x + 2 ^ 63) % 2 ^ 64 = x + 2 ^ 63 := by
    apply Int.emod_eq_of_lt <;> omega
  omega

theorem toInt32_intCast (P : Platform) (d : Int) (h : -(2 : Int) ^ 31 ≤ d ∧ d < 2 ^ 31) :
    toInt32 P (d : ℚ) = d := by
  unfold toInt32
  rw [truncate_intCast, if_pos h]

/-! ## C1: the bounds of the composite raster -/

theorem foldl_range_getD {α β : Type} (f : β → α → β) (d : α) (l : List α) (b : β) :
    (List.range l.length).foldl (fun acc i => f acc (l.getD i d)) b = l.foldl f b := by
  have hmap : (List.range l.length).map (fun i => l.getD i d) = l := by
    apply List.ext_getElem
    · simp
    · intro i h1 h2
      simp [List.getElem?_eq_getElem h2]
  have := List.foldl_map (fun i => l.getD i d) f (List.range l.length) b
  rw [hmap] at this
  exact this.symm

theorem unionLoop_eq (S : Screen) :
    unionLoop S S.NumActiveDisplays = S.displays.foldl Rectangle.Union ZR :=
  foldl_range_getD Rectangle.Union ZR S.displays ZR

theorem Rectangle.Empty_eq_false (r : Rectangle) :
    r.Empty = false ↔ r.Min.X < r.Max.X ∧ r.Min.Y < r.Max.Y := by
  unfold Rectangle.Empty
  simp

theorem Rectangle.Union_of_nonempty (r s : Rectangle) (hr : r.Empty = false)
    (hs : s.Empty = false) :
    r.Union s = ⟨⟨min r.Min.X s.Min.X, min r.Min.Y s.Min.Y⟩,
      ⟨max r.Max.X s.Max.X, max r.Max.Y s.Max.Y⟩⟩ ∧ (r.Union s).Empty = false := by
  have h1 := (Rectangle.Empty_eq_false r).mp hr
  have h2 := (Rectangle.Empty_eq_false s).mp hs
  have heq : r.Union s = ⟨⟨min r.Min.X s.Min.X, min r.Min.Y s.Min.Y⟩,
      ⟨max r.Max.X s.Max.X, max r.Max.Y s.Max.Y⟩⟩ := by
    unfold Rectangle.Union
    rw [hr, hs]
    simp only [Bool.false_eq_true, if_false]
    congr 2
    · split <;> omega
    · split <;> omega
    · split <;> omega
    · split <;> omega
  refine ⟨heq, ?_⟩
  rw [heq, Rectangle.Empty_eq_false]
  simp only
  omega

theorem foldl_Union_eq (rs : List Rectangle) :
    ∀ acc : Rectangle, acc.Empty = false → (∀ s ∈ rs, s.Empty = false) →
      rs.foldl Rectangle.Union acc = boundingBox acc rs := by
  induction rs with
  | nil => intro acc _ _; rfl
  | cons s rest ih =>
    intro acc hacc hrs
    have hs := hrs s (List.mem_cons_self _ _)
    obtain ⟨heq, hne⟩ := Rectangle.Union_of_nonempty acc s hacc hs
    rw [List.foldl_cons, ih (acc.Union s) hne (fun x hx => hrs x (List.mem_cons_of_mem _ hx))]
    rw [heq]
    rfl

theorem foldl_min_le {α : Type} (g : α → Int) (l : List α) :
    ∀ a : Int, l.foldl (fun m s => min m (g s)) a ≤ a ∧
      (∀ s ∈ l, l.foldl (fun m s => min m (g s)) a ≤ g s) ∧
      (∀ b : Int, b ≤ a → (∀ s ∈ l, b ≤ g s) → b ≤ l.foldl (fun m s => min m (g s)) a) := by
  induction l with
  | nil => intro a; simp
  | cons x rest ih =>
    intro a
    obtain ⟨h1, h2, h3⟩ := ih (min a (g x))
    simp only [List.foldl_cons]
    refine ⟨by omega, ?_, ?_⟩
    · intro s hs
      rcases List.mem_cons.mp hs with rfl | hs
      · omega
      · exact h2 s hs
    · intro b hb hall
      apply h3 b
      · have := hall x (List.mem_cons_self _ _)
        omega
      · intro s hs
        exact hall s (List.mem_cons_of_mem _ hs)

theorem le_foldl_max {α : Type} (g : α → Int) (l : List α) :
    ∀ a : Int, a ≤ l.foldl (fun m s => max m (g s)) a ∧
      (∀ s ∈ l, g s ≤ l.foldl (fun m s => max m (g s)) a) ∧
      (∀ b : Int, a ≤ b → (∀ s ∈ l, g s ≤ b) → l.foldl (fun m s => max m (g s)) a ≤ b) := by
  induction l with
  | nil => intro a; simp
  | cons x rest ih =>
    intro a
    obtain ⟨h1, h2, h3⟩ := ih (max a (g x))
    simp only [List.foldl_cons]
    refine ⟨by omega, ?_, ?_⟩
    · intro s hs
      rcases List.mem_cons.mp hs with rfl | hs
      · omega
      · exact h2 s hs
    · intro b hb hall
      apply h3 b
      · have := hall x (List.mem_cons_self _ _)
        omega
      · intro s hs
        exact hall s (List.mem_cons_of_mem _ hs)

theorem Rectangle.In_of_nonempty (r s : Rectangle) (hr : r.Empty = false) :
    r.In s = true ↔ s.Min.X ≤ r.Min.X ∧ r.Max.X ≤ s.Max.X ∧ s.Min.Y ≤ r.Min.Y ∧
      r.Max.Y ≤ s.Max.Y := by
  unfold Rectangle.In
  rw [hr]
  simp [and_assoc]

theorem RGBA.Set_Rect (img : RGBA) (x y : Int) (c : Color) : (img.Set x y c).Rect = img.Rect := by
  unfold RGBA.Set
  split <;> rfl

theorem copyPixels_Rect (img bi : RGBA) (rect : Rectangle) :
    (copyPixels img bi rect).Rect = img.Rect := by
  unfold copyPixels
  have inner : ∀ (xs : List Int) (y : Int) (im : RGBA),
      (xs.foldl (fun im x => im.Set x y (bi.At (x - rect.Min.X) (y - rect.Min.Y))) im).Rect =
        im.Rect := by
    intro xs y
    induction xs with
    | nil => intro im; rfl
    | cons x rest ih =>
      intro im
      rw [List.foldl_cons, ih, RGBA.Set_Rect]
  generalize intRange rect.Min.Y rect.Max.Y = ys
  induction ys generalizing img with
  | nil => rfl
  | cons y rest ih =>
    rw [List.foldl_cons, ih, inner]

theorem drawLoop_Rect (S : Screen) :
    ∀ (l : List Nat) (img out : RGBA), drawLoop S l img = .ok out → out.Rect = img.Rect := by
  intro l
  induction l with
  | nil =>
    intro img out h
    simp only [drawLoop] at h
    injection h with h
    rw [h]
  | cons i rest ih =>
    intro img out h
    unfold drawLoop at h
    simp only at h
    cases hc : S.CaptureRect (S.GetDisplayBounds i) with
    | error e => rw [hc] at h; cases h
    | ok bi =>
      rw [hc] at h
      simp only at h
      rw [ih _ _ h, copyPixels_Rect]

theorem mul3NonNeg_of_fits (x y z : Int) (hx : 0 ≤ x) (hy : 0 ≤ y) (hz : 0 ≤ z)
    (hxy : x * y < 2 ^ 64) (hxyz : x * y * z < 2 ^ 63) : mul3NonNeg x y z = x * y * z := by
  have hxy0 : 0 ≤ x * y := Int.mul_nonneg hx hy
  have hxyz0 : 0 ≤ x * y * z := Int.mul_nonneg hxy0 hz
  have h1 : x * y / 2 ^ 64 = 0 := Int.ediv_eq_zero_of_lt hxy0 hxy
  have h2 : x * y % 2 ^ 64 = x * y := Int.emod_eq_of_lt hxy0 hxy
  have h3 : x * y * z / 2 ^ 64 = 0 := Int.ediv_eq_zero_of_lt hxyz0 (by omega)
  have h4 : x * y * z % 2 ^ 64 = x * y * z := Int.emod_eq_of_lt hxyz0 (by omega)
  have h5 : wrapInt64 (x * y * z) = x * y * z :=
    wrapInt64_of_fits _ (by constructor <;> omega)
  unfold mul3NonNeg
  rw [if_neg (by omega)]
  simp only [h1, h2, h3, h4, h5, ne_eq, not_true_eq_false, if_false]
  rw [if_neg (by omega)]

theorem NewRGBA_of_fits (makeLimit : Nat) (r : Rectangle) (hr : r.Empty = false)
    (hfit : bufferLength r < 2 ^ 63) (hmem : bufferLength r ≤ (makeLimit : Int)) :
    NewRGBA makeLimit r = .ok (blank r) := by
  obtain ⟨hx, hy⟩ := (Rectangle.Empty_eq_false r).mp hr
  unfold bufferLength at hfit hmem
  have hdx : 1 ≤ r.Max.X - r.Min.X := by omega
  have hdy : 1 ≤ r.Max.Y - r.Min.Y := by omega
  generalize hX : r.Max.X - r.Min.X = dx at hfit hmem hdx
  generalize hY : r.Max.Y - r.Min.Y = dy at hfit hmem hdy
  have hprod : dx ≤ dx * dy := by nlinarith
  have hprod2 : dy ≤ dx * dy := by nlinarith
  have hassoc : 4 * dx * dy = 4 * (dx * dy) := by ring
  have hDx : r.Dx = dx := by
    unfold Rectangle.Dx
    rw [hX]
    exact wrapInt64_of_fits _ (by constructor <;> omega)
  have hDy : r.Dy = dy := by
    unfold Rectangle.Dy
    rw [hY]
    exact wrapInt64_of_fits _ (by constructor <;> omega)
  have hmul : mul3NonNeg 4 dx dy = 4 * dx * dy :=
    mul3NonNeg_of_fits 4 dx dy (by norm_num) (by omega) (by omega) (by omega) hfit
  unfold NewRGBA pixelBufferLength
  simp only [hDx, hDy, hmul]
  rw [if_neg (by omega)]
  simp only
  rw [if_neg (by omega)]

theorem NewRGBA_Rect (makeLimit : Nat) (r : Rectangle) (img : RGBA)
    (h : NewRGBA makeLimit r = .ok img) : img.Rect = r := by
  unfold NewRGBA at h
  cases hp : pixelBufferLength r with
  | error p => rw [hp] at h; cases h
  | ok n =>
    rw [hp] at h
    simp only at h
    split at h
    · cases h
    · injection h with h
      rw [← h]
      rfl

/-- C1: when there is at least one display and no display rectangle is empty, the
rectangle `captureAllMonitorsJPEG` hands to `image.NewRGBA` is the bounding rectangle
of the display rectangles (least left and top edge, greatest right and bottom edge),
and every raster that call allocates has these bounds; the raster is allocated
whenever its pixel buffer fits `int` and what `make` can serve.  The bounding
rectangle contains every display rectangle and lies in every rectangle that contains
them all, and the composite handed to the encoder still has these bounds.  For the
displays `(0,0,1920,1080)` and `(1920,0,1920,1080)` the raster is allocated (given
memory for its 16588800 bytes) with the bounds `(0,0,3840,1080)`. -/
theorem allocated_bounds (S : Screen) (r : Rectangle) (rs : List Rectangle)
    (hd : S.displays = r :: rs) (hne : ∀ s ∈ S.displays, s.Empty = false) :
    unionLoop S S.NumActiveDisplays = boundingBox r rs ∧
    (∀ img, allocated S = .ok img → img.Rect = boundingBox r rs) ∧
    (bufferLength (boundingBox r rs) < 2 ^ 63 →
      bufferLength (boundingBox r rs) ≤ (S.makeLimit : Int) →
      ∃ img, allocated S = .ok img ∧ img.Rect = boundingBox r rs) ∧
    (∀ s ∈ S.displays, s.In (boundingBox r rs) = true) ∧
    (∀ R : Rectangle, (∀ s ∈ S.displays, s.In R = true) → (boundingBox r rs).In R = true) ∧
    (∀ img out, allocated S = .ok img →
      drawLoop S (List.range S.NumActiveDisplays) img = .ok out →
      out.Rect = boundingBox r rs) ∧
    (S.displays = [displayBounds 0 0 1920 1080, displayBounds 1920 0 1920 1080] →
      16588800 ≤ S.makeLimit →
      ∃ img, allocated S = .ok img ∧ img.Rect = displayBounds 0 0 3840 1080) := by
  have hr : r.Empty = false := hne r (by rw [hd]; exact List.mem_cons_self _ _)
  have hrs : ∀ s ∈ rs, s.Empty = false := fun s hs =>
    hne s (by rw [hd]; exact List.mem_cons_of_mem _ hs)
  have hfull : unionLoop S S.NumActiveDisplays = boundingBox r rs := by
    rw [unionLoop_eq, hd, List.foldl_cons]
    have : ZR.Union r = r := by
      unfold Rectangle.Union
      simp [ZR, Rectangle.Empty]
    rw [this]
    exact foldl_Union_eq rs r hr hrs
  have hrect : ∀ img, allocated S = .ok img → img.Rect = boundingBox r rs := by
    intro img himg
    unfold allocated at himg
    rw [NewRGBA_Rect _ _ _ himg, hfull]
  have hminX := foldl_min_le (fun s : Rectangle => s.Min.X) rs r.Min.X
  have hminY := foldl_min_le (fun s : Rectangle => s.Min.Y) rs r.Min.Y
  have hmaxX := le_foldl_max (fun s : Rectangle => s.Max.X) rs r.Max.X
  have hmaxY := le_foldl_max (fun s : Rectangle => s.Max.Y) rs r.Max.Y
  have hbne : (boundingBox r rs).Empty = false := by
    rw [Rectangle.Empty_eq_false]
    have := (Rectangle.Empty_eq_false r).mp hr
    simp only [boundingBox]
    constructor
    · have := hminX.1
      have := hmaxX.1
      omega
    · have := hminY.1
      have := hmaxY.1
      omega
  have htotal : bufferLength (boundingBox r rs) < 2 ^ 63 →
      bufferLength (boundingBox r rs) ≤ (S.makeLimit : Int) →
      ∃ img, allocated S = .ok img ∧ img.Rect = boundingBox r rs := by
    intro hfit hmem
    refine ⟨blank (boundingBox r rs), ?_, rfl⟩
    unfold allocated
    rw [hfull]
    exact NewRGBA_of_fits _ _ hbne hfit hmem
  refine ⟨hfull, hrect, htotal, ?_, ?_, ?_, ?_⟩
  · intro s hs
    rw [Rectangle.In_of_nonempty s _ (hne s hs)]
    rw [hd] at hs
    simp only [boundingBox]
    rcases List.mem_cons.mp hs with rfl | hs
    · exact ⟨hminX.1, hmaxX.1, hminY.1, hmaxY.1⟩
    · exact ⟨hminX.2.1 s hs, hmaxX.2.1 s hs, hminY.2.1 s hs, hmaxY.2.1 s hs⟩
  · intro R hR
    rw [Rectangle.In_of_nonempty _ _ hbne]
    have hall : ∀ s ∈ r :: rs, R.Min.X ≤ s.Min.X ∧ s.Max.X ≤ R.Max.X ∧ R.Min.Y ≤ s.Min.Y ∧
        s.Max.Y ≤ R.Max.Y := by
      intro s hs
      rw [← hd] at hs
      exact (Rectangle.In_of_nonempty s R (hne s hs)).mp (hR s hs)
    have h0 := hall r (List.mem_cons_self _ _)
    simp only [boundingBox]
    refine ⟨hminX.2.2 _ h0.1 (fun s hs => (hall s (List.mem_cons_of_mem _ hs)).1),
      hmaxX.2.2 _ h0.2.1 (fun s hs => (hall s (List.mem_cons_of_mem _ hs)).2.1),
      hminY.2.2 _ h0.2.2.1 (fun s hs => (hall s (List.mem_cons_of_mem _ hs)).2.2.1),
      hmaxY.2.2 _ h0.2.2.2 (fun s hs => (hall s (List.mem_cons_of_mem _ hs)).2.2.2)⟩
  · intro img out himg hout
    rw [drawLoop_Rect S _ _ _ hout, hrect img himg]
  · intro hex hmem
    have hbox : boundingBox r rs = displayBounds 0 0 3840 1080 := by
      rw [← hfull, unionLoop_eq, hex]
      decide
    rw [hbox] at htotal
    have hlen : bufferLength (displayBounds 0 0 3840 1080) = 16588800 := by decide
    rw [hlen] at htotal
    exact htotal (by norm_num) (by exact_mod_cast hmem)

theorem allocated_bounds_witness :
    ∃ img, allocated (sampleScreen
        [displayBounds 0 0 1920 1080, displayBounds 1920 0 1920 1080] none) = .ok img ∧
      img.Rect = displayBounds 0 0 3840 1080 :=
  (allocated_bounds
    (sampleScreen [displayBounds 0 0 1920 1080, displayBounds 1920 0 1920 1080] none)
    (displayBounds 0 0 1920 1080) [displayBounds 1920 0 1920 1080] rfl
    (by decide)).2.2.2.2.2.2 rfl (by decide)

/-! ## C2: the read loop -/

theorem readerTurn_of_not_error (U : List Nat → Except String ControlMsg) (m : Inbound)
    (h : m.isError = false) : readerTurn U m = some (forwarded U m) := by
  cases m with
  | error e => simp [Inbound.isError] at h
  | message mt msg =>
    unfold readerTurn forwarded
    by_cases hmt : mt = TextMessage
    · simp only [hmt, if_true]
      cases U msg with
      | error e => rfl
      | ok cmsg => by_cases hc : cmsg.Type_ = "control" <;> simp [hc]
    · simp [hmt]

theorem reader_no_error (U : List Nat → Except String ControlMsg) :
    ∀ ms : List Inbound, (∀ m ∈ ms, m.isError = false) →
      reader U ms = (ms.flatMap (forwarded U), false) := by
  intro ms
  induction ms with
  | nil => intro _; rfl
  | cons m rest ih =>
    intro h
    have hm := readerTurn_of_not_error U m (h m (List.mem_cons_self _ _))
    have hrest := ih (fun x hx => h x (List.mem_cons_of_mem _ hx))
    simp [reader, hm, hrest]

theorem reader_until_error (U : List Nat → Except String ControlMsg) (e : String)
    (post : List Inbound) :
    ∀ ms : List Inbound, (∀ m ∈ ms, m.isError = false) →
      reader U (ms ++ Inbound.error e :: post) = (ms.flatMap (forwarded U), true) := by
  intro ms
  induction ms with
  | nil => intro _; rfl
  | cons m rest ih =>
    intro h
    have hm := readerTurn_of_not_error U m (h m (List.mem_cons_self _ _))
    have hrest := ih (fun x hx => h x (List.mem_cons_of_mem _ hx))
    simp [reader, hm, hrest]

/-- C2: in one turn the read loop sends a payload to the control queue if and only
if the message is a text frame that `json.Unmarshal` accepts with envelope type
`control`, and what it sends is that envelope's payload; the loop returns if and only
if the read failed; in every other case (binary frame, other envelope type, malformed
JSON) it sends nothing and goes on.  Over a run of messages the loop therefore sends
exactly the payloads of the control envelopes, in order, up to the first read error. -/
theorem reader_forwards_control_only (U : List Nat → Except String ControlMsg) :
    (∀ m p, readerTurn U m = some [p] ↔
      ∃ msg cmsg, m = Inbound.message TextMessage msg ∧ U msg = .ok cmsg ∧
        cmsg.Type_ = "control" ∧ cmsg.Payload = p) ∧
    (∀ m, readerTurn U m = none ↔ ∃ err, m = Inbound.error err) ∧
    (∀ m, (¬ ∃ err, m = Inbound.error err) →
      (¬ ∃ msg cmsg, m = Inbound.message TextMessage msg ∧ U msg = .ok cmsg ∧
        cmsg.Type_ = "control") →
      readerTurn U m = some []) ∧
    (∀ ms, (∀ m ∈ ms, m.isError = false) →
      reader U ms = (ms.flatMap (forwarded U), false)) ∧
    (∀ ms err post, (∀ m ∈ ms, m.isError = false) →
      reader U (ms ++ Inbound.error err :: post) = (ms.flatMap (forwarded U), true)) := by
  refine ⟨?_, ?_, ?_, reader_no_error U, fun ms err post => reader_until_error U err post ms⟩
  · intro m p
    cases m with
    | error e => simp [readerTurn]
    | message mt msg =>
      unfold readerTurn
      by_cases hmt : mt = TextMessage
      · subst hmt
        simp only [if_true]
        cases hU : U msg with
        | error e => simp [hU]
        | ok cmsg =>
          by_cases hc : cmsg.Type_ = "control"
          · simp [hc, hU]
          · simp [hU, hc]
      · simp only [hmt, if_false]
        constructor
        · intro h
          simp at h
        · rintro ⟨msg1, cmsg, h, _⟩
          injection h with h1 h2
          exact absurd h1 hmt
  · intro m
    cases m with
    | error e => simp [readerTurn]
    | message mt msg =>
      unfold readerTurn
      by_cases hmt : mt = TextMessage
      · simp only [hmt, if_true]
        cases U msg with
        | error e => simp
        | ok cmsg => by_cases hc : cmsg.Type_ = "control" <;> simp [hc]
      · simp [hmt]
  · intro m hne hnc
    cases m with
    | error e => exact absurd ⟨e, rfl⟩ hne
    | message mt msg =>
      unfold readerTurn
      by_cases hmt : mt = TextMessage
      · subst hmt
        simp only [if_true]
        cases hU : U msg with
        | error e => rfl
        | ok cmsg =>
          by_cases hc : cmsg.Type_ = "control"
          · exact absurd ⟨msg, cmsg, rfl, hU, hc⟩ hnc
          · simp [hc]
      · simp [hmt]

theorem reader_forwards_control_only_witness :
    readerTurn sampleUnmarshal (Inbound.message BinaryMessage [1]) = some [] ∧
    reader sampleUnmarshal
        ([Inbound.message TextMessage [2], Inbound.message TextMessage [9],
          Inbound.message TextMessage [1], Inbound.message BinaryMessage [1]] ++
          Inbound.error "closed" :: [Inbound.message TextMessage [1]]) =
      ([{ Type_ := "mouse", Action := "wheel" }], true) :=
  ⟨(reader_forwards_control_only sampleUnmarshal).2.2.1 (Inbound.message BinaryMessage [1])
      (by simp) (by simp [TextMessage, BinaryMessage]),
   (reader_forwards_control_only sampleUnmarshal).2.2.2.2
      [Inbound.message TextMessage [2], Inbound.message TextMessage [9],
       Inbound.message TextMessage [1], Inbound.message BinaryMessage [1]]
      "closed" [Inbound.message TextMessage [1]] (by decide)⟩

/-! ## Lemmas on strings -/

theorem toLowerRune_of_toLower_lt (P : Platform) (c : Char) (h : c.toLower.toNat < 0x80) :
    toLowerRune P c = c.toLower := by
  unfold toLowerRune
  split
  · rfl
  · rename_i hc
    exfalso
    apply hc
    unfold Char.toLower at h
    simp only [ge_iff_le] at h
    split at h
    · omega
    · exact h

theorem ToLower_eq_of_spells (P : Platform) (s name : String)
    (hascii : ∀ c ∈ name.data, c.toNat < 0x80) (h : Spells s name) :
    ToLower P s = name := by
  unfold Spells at h
  unfold ToLower
  have hmap : List.map (toLowerRune P) s.data = name.data := by
    rw [← h]
    apply List.map_congr_left
    intro c hc
    apply toLowerRune_of_toLower_lt
    apply hascii
    rw [← h]
    simp only [List.mem_map]
    exact ⟨c, hc, rfl⟩
  rw [hmap]

/-! ## C7: the key table -/

/-- C7: for every entry of the fixed key table and every spelling of its name in
upper-case and lower-case letters, `vkFromKeyName` returns the code of the table and
makes no call to the operating system, whatever the platform; in particular
`Enter` resolves to 0x0D. -/
theorem vkFromKeyName_table (P : Platform) (name : String) (code : Nat) (s : String)
    (hmem : (name, code) ∈ keyTable) (hs : Spells s name) :
    vkFromKeyName P s = (code, []) ∧ vkFromKeyName P "Enter" = (0x0D, []) := by
  have hEnter : ToLower P "Enter" = "enter" :=
    ToLower_eq_of_spells P _ _ (by decide) (by unfold Spells; rfl)
  refine ⟨?_, by simp [vkFromKeyName, hEnter]⟩
  simp only [keyTable, List.mem_cons, Prod.mk.injEq, List.mem_singleton, List.not_mem_nil,
    or_false] at hmem
  rcases hmem with h | h | h | h | h | h | h | h | h | h | h | h | h | h | h | h | h | h | h <;>
  · obtain ⟨hn, hc⟩ := h
    subst hn hc
    have hl := ToLower_eq_of_spells P s _ (by decide) hs
    simp [vkFromKeyName, hl]

theorem vkFromKeyName_table_witness :
    ("arrowleft", 0x25) ∈ keyTable ∧ Spells "ArrowLeft" "arrowleft" ∧
    vkFromKeyName idlePlatform "ArrowLeft" = (0x25, []) ∧
    vkFromKeyName idlePlatform "Enter" = (0x0D, []) :=
  ⟨by decide, by unfold Spells; rfl,
   vkFromKeyName_table idlePlatform "arrowleft" 0x25 "ArrowLeft" (by decide)
     (by unfold Spells; rfl)⟩

/-! ## C3: unknown commands -/

/-- C3: a payload whose type and action are not a recognised pair makes
`processControl` call nothing at all: no cursor, mouse, keyboard, key-lookup or
clipboard call.  The function is total, so it returns. -/
theorem processControl_unrecognised (P : Platform) (p : ControlPayload)
    (h : ¬ Recognised p.Type_ p.Action) : processControl P p = [] := by
  unfold Recognised at h
  simp only [List.mem_cons, List.mem_singleton, List.not_mem_nil, or_false, not_or,
    not_and] at h
  obtain ⟨hm, hk, hc⟩ := h
  unfold processControl
  by_cases h1 : p.Type_ = "mouse"
  · have := hm h1
    simp [h1, this]
  · by_cases h2 : p.Type_ = "key"
    · have := hk h2
      simp [h2, this]
    · by_cases h3 : p.Type_ = "clipboard"
      · have := hc h3
        simp [h3, this]
      · simp [h1, h2, h3]

theorem processControl_unrecognised_witness :
    ¬ Recognised "mouse" "tap" ∧
    processControl idlePlatform { Type_ := "mouse", Action := "tap", Key := "Enter" } = [] :=
  ⟨by unfold Recognised; decide,
   processControl_unrecognised idlePlatform { Type_ := "mouse", Action := "tap", Key := "Enter" }
     (by unfold Recognised; decide)⟩

/-! ## C4: the connect loop -/

theorem dialLoop_success (dial : Nat → DialResult) (c : Nat) :
    ∀ (k left attempt : Nat) (v : ConnVars), k < left →
      (∀ i, i < k → ∃ e, dial (attempt + i) = .fail e) → dial (attempt + k) = .ok c →
      dialLoop dial left attempt v =
        (⟨some c, none⟩, retriesFrom attempt k ++ [MainEvent.Dial (attempt + k)]) := by
  intro k
  induction k with
  | zero =>
    intro left attempt v hlt _ hok
    obtain ⟨l, rfl⟩ : ∃ l, left = l + 1 := ⟨left - 1, by omega⟩
    simp only [Nat.add_zero] at hok
    simp [dialLoop, hok, retriesFrom]
  | succ k ih =>
    intro left attempt v hlt hfail hok
    obtain ⟨l, rfl⟩ : ∃ l, left = l + 1 := ⟨left - 1, by omega⟩
    obtain ⟨e, he⟩ := hfail 0 (by omega)
    simp only [Nat.add_zero] at he
    have hrec := ih l (attempt + 1) ⟨none, some e⟩ (by omega)
      (fun i hi => by
        have := hfail (i + 1) (by omega)
        rwa [show attempt + 1 + i = attempt + (i + 1) by omega])
      (by rwa [show attempt + 1 + k = attempt + (k + 1) by omega])
    simp [dialLoop, he, hrec, retriesFrom]
    omega

theorem dialLoop_exhausted (dial : Nat → DialResult) :
    ∀ (left attempt : Nat) (v : ConnVars) (last : String),
      (∀ i, i < left → ∃ e, dial (attempt + i) = .fail e) →
      dial (attempt + left) = .fail last →
      dialLoop dial (left + 1) attempt v =
        (⟨none, some last⟩, retriesFrom attempt (left + 1)) := by
  intro left
  induction left with
  | zero =>
    intro attempt v last _ hlast
    simp only [Nat.add_zero] at hlast
    simp [dialLoop, hlast, retriesFrom]
  | succ left ih =>
    intro attempt v last hfail hlast
    obtain ⟨e, he⟩ := hfail 0 (by omega)
    simp only [Nat.add_zero] at he
    have hrec := ih (attempt + 1) ⟨none, some e⟩ last
      (fun i hi => by
        have := hfail (i + 1) (by omega)
        rwa [show attempt + 1 + i = attempt + (i + 1) by omega])
      (by rwa [show attempt + 1 + left = attempt + (left + 1) by omega])
    rw [dialLoop, he]
    simp only [hrec]
    rfl

theorem dialAttempts_append (a b : List MainEvent) :
    dialAttempts (a ++ b) = dialAttempts a ++ dialAttempts b := by
  simp [dialAttempts]

theorem dialLoop_attempts (dial : Nat → DialResult) :
    ∀ (left attempt : Nat) (v : ConnVars),
      (dialAttempts (dialLoop dial left attempt v).2).length ≤ left := by
  intro left
  induction left with
  | zero =>
    intro attempt v
    simp [dialLoop, dialAttempts]
  | succ left ih =>
    intro attempt v
    rw [dialLoop]
    cases hd : dial attempt with
    | ok c => simp [dialAttempts]
    | fail e =>
      have := ih (attempt + 1) ⟨none, some e⟩
      simp only [dialAttempts_append]
      simp only [dialAttempts, List.filter_cons, List.filter_nil, List.length_append] at this ⊢
      simp only [if_true, Bool.false_eq_true, if_false, List.length_cons, List.length_nil]
      omega

/-- C4: `main` dials until the first success and at most 6 times, sleeping three
seconds after each failed attempt.  When attempts 1..k fail and attempt k+1 (at most
the 6th) succeeds, it goes on to register and to start the goroutines with that
connection.  When all 6 attempts fail, the run is the 6 dials with their sleeps and
then `log.Fatalf` with the error of the 6th attempt, and nothing else: no
registration, no capture, no dispatch. -/
theorem main_connect (dial : Nat → DialResult) (hostID : String) (clipErr : Option String)
    (fps quality : Int) :
    (∀ k c, k < 6 → (∀ i, i < k → ∃ e, dial (1 + i) = .fail e) → dial (1 + k) = .ok c →
      main dial hostID clipErr fps quality =
        retries k ++ [MainEvent.Dial (1 + k)] ++ afterConnect c hostID clipErr fps quality) ∧
    (∀ last, (∀ i, i < 5 → ∃ e, dial (1 + i) = .fail e) → dial 6 = .fail last →
      main dial hostID clipErr fps quality = retries 6 ++ [MainEvent.Fatalf last] ∧
      (main dial hostID clipErr fps quality).any MainEvent.startsSession = false) ∧
    (dialAttempts (main dial hostID clipErr fps quality)).length ≤ 6 := by
  refine ⟨?_, ?_, ?_⟩
  · intro k c hk hfail hok
    have h := dialLoop_success dial c k 6 1 ⟨none, none⟩ hk hfail hok
    simp [main, h, retries]
  · intro last hfail hlast
    have h := dialLoop_exhausted dial 5 1 ⟨none, none⟩ last hfail hlast
    have hmain : main dial hostID clipErr fps quality = retries 6 ++ [MainEvent.Fatalf last] := by
      simp [main, h, retries]
    refine ⟨hmain, ?_⟩
    rw [hmain]
    rfl
  · have h := dialLoop_attempts dial 6 1 ⟨none, none⟩
    unfold main
    simp only
    split
    · rw [dialAttempts_append]
      simpa [dialAttempts] using h
    · have hafter : ∀ conn, dialAttempts (afterConnect conn hostID clipErr fps quality) = [] := by
        intro conn
        unfold afterConnect
        cases clipErr <;> rfl
      rw [dialAttempts_append, hafter]
      simpa using h

theorem main_connect_witness :
    main (fun i => if i = 3 then DialResult.ok 7 else DialResult.fail "refused") "id" none 8 60 =
      retries 2 ++ [MainEvent.Dial 3] ++ afterConnect 7 "id" none 8 60 ∧
    main (fun i => DialResult.fail (toString i)) "id" none 8 60 =
      retries 6 ++ [MainEvent.Fatalf "6"] :=
  ⟨(main_connect (fun i => if i = 3 then DialResult.ok 7 else DialResult.fail "refused")
      "id" none 8 60).1 2 7 (by decide)
      (fun i hi => ⟨"refused", by
        have : 1 + i ≠ 3 := by omega
        simp [this]⟩)
      (by simp),
   ((main_connect (fun i => DialResult.fail (toString i)) "id" none 8 60).2.1 "6"
      (fun i _ => ⟨_, rfl⟩) (by rfl)).1⟩

/-! ## C5: the control goroutine keeps the order of arrival -/

/-- The commands handled so far are an initial segment of the arrivals, handled
once each and in order; the rest waits in the queue or has not arrived. -/
theorem Pipeline.step_invariant (P : Platform) (cs : List ControlPayload) (s : Pipeline)
    (t : Turn)
    (h : ∃ handled, cs = handled ++ s.controlChan ++ s.arriving ∧
      s.calls = handled.flatMap (processControl P)) :
    ∃ handled, cs = handled ++ (s.step P t).controlChan ++ (s.step P t).arriving ∧
      (s.step P t).calls = handled.flatMap (processControl P) := by
  obtain ⟨handled, hcs, hcalls⟩ := h
  cases t with
  | reader =>
    unfold Pipeline.step
    cases ha : s.arriving with
    | nil => exact ⟨handled, by simpa [ha] using hcs, by simpa using hcalls⟩
    | cons p rest =>
      simp only
      split
      · exact ⟨handled, by simpa [ha] using hcs, hcalls⟩
      · exact ⟨handled, by simpa [ha] using hcs, hcalls⟩
  | control =>
    unfold Pipeline.step
    cases hc : s.controlChan with
    | nil => exact ⟨handled, by simpa [hc] using hcs, by simpa using hcalls⟩
    | cons p rest =>
      refine ⟨handled ++ [p], by simpa [hc] using hcs, ?_⟩
      simp [hcalls]

theorem Pipeline.run_invariant (P : Platform) (cs : List ControlPayload) (turns : List Turn) :
    ∀ s : Pipeline,
      (∃ handled, cs = handled ++ s.controlChan ++ s.arriving ∧
        s.calls = handled.flatMap (processControl P)) →
      ∃ handled, cs = handled ++ (s.run P turns).controlChan ++ (s.run P turns).arriving ∧
        (s.run P turns).calls = handled.flatMap (processControl P) := by
  induction turns with
  | nil => intro s h; exact h
  | cons t rest ih =>
    intro s h
    have := ih (s.step P t) (Pipeline.step_invariant P cs s t h)
    simpa [Pipeline.run] using this

theorem Pipeline.run_alternate (P : Platform) :
    ∀ (cs : List ControlPayload) (calls : List Call),
      Pipeline.run P ⟨cs, [], calls⟩ (alternate cs.length) =
        ⟨[], [], calls ++ cs.flatMap (processControl P)⟩ := by
  intro cs
  induction cs with
  | nil => intro calls; simp [alternate, Pipeline.run]
  | cons c rest ih =>
    intro calls
    have := ih (calls ++ processControl P c)
    simp only [Pipeline.run] at this
    simp [alternate, Pipeline.run, Pipeline.step, controlChanCap, this]

/-- C5: however the reader and the control goroutine are scheduled, the commands the
control goroutine has handled are an initial segment of the commands in their order
of arrival, and the calls made are the concatenation, in that order, of the calls
`processControl` makes for each of them: nothing is reordered, skipped or run twice.
Once every command has arrived and the queue is empty, the calls are those of
`c1, ..., cn` in order; that state is reached (for one by the alternating schedule),
and short of it some goroutine can always take a step. -/
theorem control_in_arrival_order (P : Platform) (cs : List ControlPayload) :
    (∀ turns, ∃ handled,
      cs = handled ++ ((Pipeline.start cs).run P turns).controlChan ++
        ((Pipeline.start cs).run P turns).arriving ∧
      ((Pipeline.start cs).run P turns).calls = handled.flatMap (processControl P)) ∧
    (∀ turns, ((Pipeline.start cs).run P turns).arriving = [] →
      ((Pipeline.start cs).run P turns).controlChan = [] →
      ((Pipeline.start cs).run P turns).calls = cs.flatMap (processControl P)) ∧
    (Pipeline.start cs).run P (alternate cs.length) =
      ⟨[], [], cs.flatMap (processControl P)⟩ ∧
    (∀ s : Pipeline, s.remaining ≠ 0 → ∃ t, (s.step P t).remaining < s.remaining) := by
  have hinv := fun turns =>
    Pipeline.run_invariant P cs turns (Pipeline.start cs) ⟨[], by simp [Pipeline.start], rfl⟩
  refine ⟨hinv, ?_, ?_, ?_⟩
  · intro turns ha hc
    obtain ⟨handled, hcs, hcalls⟩ := hinv turns
    rw [ha, hc] at hcs
    simp only [List.append_nil] at hcs
    rw [hcalls, hcs]
  · have := Pipeline.run_alternate P cs []
    simpa [Pipeline.start] using this
  · intro s hs
    cases hc : s.controlChan with
    | cons p rest =>
      refine ⟨Turn.control, ?_⟩
      simp [Pipeline.step, Pipeline.remaining, hc]
    | nil =>
      cases ha : s.arriving with
      | nil => simp [Pipeline.remaining, hc, ha] at hs
      | cons p rest =>
        refine ⟨Turn.reader, ?_⟩
        simp [Pipeline.step, Pipeline.remaining, hc, ha, controlChanCap]
        omega

theorem control_in_arrival_order_witness :
    ((Pipeline.start [{ Type_ := "key", Action := "tap", Key := "Enter" },
        { Type_ := "clipboard", Action := "set", Text := "a" }]).run idlePlatform
      [Turn.control, Turn.reader, Turn.reader, Turn.control, Turn.control]).calls =
    ([{ Type_ := "key", Action := "tap", Key := "Enter" },
      { Type_ := "clipboard", Action := "set", Text := "a" }] :
        List ControlPayload).flatMap (processControl idlePlatform) :=
  (control_in_arrival_order idlePlatform
    [{ Type_ := "key", Action := "tap", Key := "Enter" },
     { Type_ := "clipboard", Action := "set", Text := "a" }]).2.1
    [Turn.control, Turn.reader, Turn.reader, Turn.control, Turn.control]
    (by simp [Pipeline.run, Pipeline.step, Pipeline.start, controlChanCap])
    (by simp [Pipeline.run, Pipeline.step, Pipeline.start, controlChanCap])

/-! ## C6: the wheel -/

/-- C6, as amended: for every integer delta `d` whose product `d * 120` fits a signed
32-bit integer, a mouse/wheel command makes exactly one call, a wheel event whose
amount is `d * WHEEL_DELTA` (passed as the machine word of that signed value, which
is `d * 120` itself when `d` is not negative); for delta 2 the amount is 240. -/
theorem wheel_amount (P : Platform) (p : ControlPayload) (d : Int)
    (h : -(2 : Int) ^ 31 ≤ d * 120 ∧ d * 120 < 2 ^ 31) :
    processControl P { p with Type_ := "mouse", Action := "wheel", Delta := (d : ℚ) } =
      [Call.mouse_event MOUSEEVENTF_WHEEL 0 0 (uintptr (d * WHEEL_DELTA)) 0] ∧
    (0 ≤ d → (uintptr (d * WHEEL_DELTA) : Int) = d * 120) ∧
    processControl P { p with Type_ := "mouse", Action := "wheel", Delta := 2 } =
      [Call.mouse_event MOUSEEVENTF_WHEEL 0 0 240 0] := by
  refine ⟨?_, ?_, ?_⟩
  · have hd : toInt32 P (d : ℚ) = d := toInt32_intCast P d (by omega)
    simp only [processControl, mouseWheel, hd, WHEEL_DELTA]
    simp [wrapInt32_of_fits _ h]
  · intro h0
    unfold uintptr WHEEL_DELTA
    have : d * 120 % 2 ^ 64 = d * 120 := by
      apply Int.emod_eq_of_lt <;> omega
    rw [this]
    omega
  · have hd : toInt32 P (2 : ℚ) = 2 := by
      have := toInt32_intCast P 2 (by norm_num)
      simpa using this
    simp only [processControl, mouseWheel, hd, WHEEL_DELTA]
    simp [wrapInt32, uintptr]

theorem wheel_amount_witness :
    (-(2 : Int) ^ 31 ≤ (-3) * 120 ∧ (-3 : Int) * 120 < 2 ^ 31) ∧
    processControl idlePlatform { Type_ := "mouse", Action := "wheel", Delta := ((-3 : Int) : ℚ) } =
      [Call.mouse_event MOUSEEVENTF_WHEEL 0 0 (uintptr (-3 * WHEEL_DELTA)) 0] :=
  ⟨by decide, (wheel_amount idlePlatform {} (-3) (by decide)).1⟩

/-- C6 fails as stated: delta 35791395 is an integer that fits 32 bits, yet the
product wraps and the wheel event carries the amount 104, not 35791395 * 120. -/
theorem wheel_amount_wraps :
    processControl idlePlatform
        { Type_ := "mouse", Action := "wheel", Delta := ((35791395 : Int) : ℚ) } =
      [Call.mouse_event MOUSEEVENTF_WHEEL 0 0 104 0] ∧
    uintptr (35791395 * WHEEL_DELTA) = 4294967400 ∧
    processControl idlePlatform
        { Type_ := "mouse", Action := "wheel", Delta := ((35791395 : Int) : ℚ) } ≠
      [Call.mouse_event MOUSEEVENTF_WHEEL 0 0 (uintptr (35791395 * WHEEL_DELTA)) 0] := by
  have hd : toInt32 idlePlatform ((35791395 : Int) : ℚ) = 35791395 :=
    toInt32_intCast idlePlatform 35791395 (by decide)
  have hrun : processControl idlePlatform
        { Type_ := "mouse", Action := "wheel", Delta := ((35791395 : Int) : ℚ) } =
      [Call.mouse_event MOUSEEVENTF_WHEEL 0 0 104 0] := by
    simp only [processControl, mouseWheel, hd]
    decide
  refine ⟨hrun, by decide, ?_⟩
  rw [hrun]
  decide

/-! ## C8: tap, down, up -/

theorem ite_of_both {α : Type} (Q : α → Prop) (c : Prop) [Decidable c] (a b : α)
    (ha : Q a) (hb : Q b) : Q (if c then a else b) := by
  split <;> assumption

theorem vkFromKeyName_calls (P : Platform) (k : String) : LookupOnly (vkFromKeyName P k) := by
  unfold vkFromKeyName
  simp only
  repeat refine ite_of_both LookupOnly _ _ _ (Or.inl rfl) ?_
  split
  · exact Or.inr ⟨_, rfl⟩
  · exact Or.inl rfl

/-- C8: for every key name (and whatever the other fields are), the keyboard events
of a key/tap command are those of a key/down command followed by a key/up command:
when the name resolves to a code other than 0, one key-down and then one key-up of
that code, and in the tap itself a sleep of 10 ms stands between the two; when it
resolves to 0, no event on either side. -/
theorem tap_eq_down_then_up (P : Platform) (p : ControlPayload) :
    keyboardEvents (processControl P { p with Type_ := "key", Action := "tap" }) =
      keyboardEvents (processControl P { p with Type_ := "key", Action := "down" } ++
        processControl P { p with Type_ := "key", Action := "up" }) ∧
    keyboardEvents (processControl P { p with Type_ := "key", Action := "tap" }) =
      (if (vkFromKeyName P p.Key).1 ≠ 0 then
        [Call.keybd_event (vkFromKeyName P p.Key).1 0 0 0,
         Call.keybd_event (vkFromKeyName P p.Key).1 0 KEYEVENTF_KEYUP 0]
       else []) ∧
    processControl P { p with Type_ := "key", Action := "tap" } =
      (vkFromKeyName P p.Key).2 ++
      (if (vkFromKeyName P p.Key).1 ≠ 0 then
        [Call.keybd_event (vkFromKeyName P p.Key).1 0 0 0, Call.Sleep 10,
         Call.keybd_event (vkFromKeyName P p.Key).1 0 KEYEVENTF_KEYUP 0]
       else []) := by
  have hlookup : keyboardEvents (vkFromKeyName P p.Key).2 = [] := by
    rcases vkFromKeyName_calls P p.Key with h | ⟨ch, h⟩ <;> rw [h] <;> rfl
  have happ : ∀ a b : List Call,
      keyboardEvents (a ++ b) = keyboardEvents a ++ keyboardEvents b := by
    intro a b
    simp [keyboardEvents]
  have hdown : ∀ vk, keyboardEvents (keyDown vk) = [Call.keybd_event vk 0 0 0] := fun _ => rfl
  have hup : ∀ vk, keyboardEvents (keyUp vk) = [Call.keybd_event vk 0 KEYEVENTF_KEYUP 0] :=
    fun _ => rfl
  have htap : ∀ vk, keyboardEvents (keyTap vk) =
      [Call.keybd_event vk 0 0 0, Call.keybd_event vk 0 KEYEVENTF_KEYUP 0] := fun _ => rfl
  have hnil : keyboardEvents [] = [] := rfl
  have e1 : processControl P { p with Type_ := "key", Action := "tap" } =
      (vkFromKeyName P p.Key).2 ++
        (if (vkFromKeyName P p.Key).1 ≠ 0 then keyTap (vkFromKeyName P p.Key).1 else []) := by
    simp [processControl]
  have e2 : processControl P { p with Type_ := "key", Action := "down" } =
      (vkFromKeyName P p.Key).2 ++
        (if (vkFromKeyName P p.Key).1 ≠ 0 then keyDown (vkFromKeyName P p.Key).1 else []) := by
    simp [processControl]
  have e3 : processControl P { p with Type_ := "key", Action := "up" } =
      (vkFromKeyName P p.Key).2 ++
        (if (vkFromKeyName P p.Key).1 ≠ 0 then keyUp (vkFromKeyName P p.Key).1 else []) := by
    simp [processControl]
  rw [e1, e2, e3]
  generalize vkFromKeyName P p.Key = r at hlookup
  by_cases hv : r.1 = 0
  · simp only [hv, ne_eq, not_true_eq_false, if_false, happ, hlookup, hnil, List.append_nil,
      and_self]
  · simp only [hv, ne_eq, not_false_eq_true, if_true, happ, hlookup, hnil, hdown, hup, htap,
      List.nil_append, List.append_nil, true_and]
    exact ⟨rfl, rfl⟩

/-! ## C9: a failed capture skips the tick -/

theorem drawLoop_error (S : Screen) :
    ∀ (l : List Nat) (img : RGBA),
      (∃ i ∈ l, ∃ e, S.CaptureRect (S.GetDisplayBounds i) = .error e) →
      ∃ e, drawLoop S l img = .error e := by
  intro l
  induction l with
  | nil => intro img h; simp at h
  | cons j rest ih =>
    intro img h
    unfold drawLoop
    simp only
    cases hj : S.CaptureRect (S.GetDisplayBounds j) with
    | error e => exact ⟨e, rfl⟩
    | ok bi =>
      simp only
      apply ih
      obtain ⟨i, hi, e, he⟩ := h
      rcases List.mem_cons.mp hi with rfl | hi
      · rw [hj] at he
        cases he
      · exact ⟨i, hi, e, he⟩

theorem capture_fails (S : Screen) (quality : Int)
    (h : S.NumActiveDisplays = 0 ∨
      ((∃ img, allocated S = .ok img) ∧
        ∃ i, i < S.NumActiveDisplays ∧ ∃ e, S.CaptureRect (S.GetDisplayBounds i) = .error e)) :
    ∃ e, captureAllMonitorsJPEG S quality = .err e := by
  unfold captureAllMonitorsJPEG
  simp only
  split
  · exact ⟨_, rfl⟩
  · rcases h with h | ⟨⟨img, himg⟩, i, hi, e, he⟩
    · contradiction
    · obtain ⟨e1, he1⟩ := drawLoop_error S (List.range S.NumActiveDisplays) img
        ⟨i, List.mem_range.mpr hi, e, he⟩
      rw [himg]
      simp only
      rw [he1]
      exact ⟨e1, rfl⟩

theorem captureLoop_skip (quality : Int) (e : Selected) (post : List Selected)
    (h : captureTurn quality e = ([], CaptureState.waiting)) :
    ∀ pre : List Selected,
      captureLoop quality (pre ++ e :: post) = captureLoop quality (pre ++ post) := by
  intro pre
  induction pre with
  | nil => simp [captureLoop, h]
  | cons x rest ih =>
    simp only [List.cons_append]
    rw [captureLoop, captureLoop, ih]

theorem captureLoop_ends (quality : Int) :
    ∀ es : List Selected, (captureLoop quality es).2 ≠ CaptureState.waiting →
      (∃ e ∈ es, (captureTurn quality e).2 ≠ CaptureState.waiting) := by
  intro es
  induction es with
  | nil => intro h; simp [captureLoop] at h
  | cons x rest ih =>
    intro h
    by_cases hx : (captureTurn quality x).2 = CaptureState.waiting
    · rw [captureLoop] at h
      have hsplit : captureTurn quality x = ((captureTurn quality x).1, CaptureState.waiting) := by
        rw [← hx]
      rw [hsplit] at h
      simp only at h
      obtain ⟨e, he, hne⟩ := ih h
      exact ⟨e, List.mem_cons_of_mem _ he, hne⟩
    · exact ⟨x, List.mem_cons_self _ _, hx⟩

theorem captureTurn_ends (quality : Int) (e : Selected)
    (h : (captureTurn quality e).2 ≠ CaptureState.waiting) : e.Ends quality ∨ e.Panics := by
  cases e with
  | stopCapture => exact Or.inl trivial
  | tick S w =>
    unfold captureTurn at h
    cases hc : captureAllMonitorsJPEG S quality with
    | err msg => simp [hc] at h
    | ok frame =>
      cases w with
      | none => simp [hc] at h
      | some msg => exact Or.inl ⟨⟨frame, hc⟩, by simp⟩
    | panicked p =>
      right
      unfold captureAllMonitorsJPEG at hc
      simp only at hc
      split at hc
      · cases hc
      · rename_i hn
        refine ⟨hn, ?_⟩
        cases ha : allocated S with
        | error q => exact ⟨q, rfl⟩
        | ok img =>
          exfalso
          rw [ha] at hc
          simp only at hc
          split at hc
          · cases hc
          · split at hc <;> cases hc

/-- C9, as amended: on a tick on which no display is reported, or on which the
raster is allocated and the capture of some display fails, `captureAllMonitorsJPEG`
returns an error and no frame; the capture loop writes nothing in that turn and keeps
waiting, so that the run of the loop is the same as if the tick had not happened.
The loop leaves its waiting state only on the stop signal, on a failed write of a
captured frame, or on a tick on which the allocation of the raster panics. -/
theorem failed_capture_skips_tick (S : Screen) (quality : Int) (writeErr : Option String)
    (h : S.NumActiveDisplays = 0 ∨
      ((∃ img, allocated S = .ok img) ∧
        ∃ i, i < S.NumActiveDisplays ∧ ∃ e, S.CaptureRect (S.GetDisplayBounds i) = .error e)) :
    (∃ e, captureAllMonitorsJPEG S quality = .err e) ∧
    captureTurn quality (Selected.tick S writeErr) = ([], CaptureState.waiting) ∧
    (∀ pre post, captureLoop quality (pre ++ Selected.tick S writeErr :: post) =
      captureLoop quality (pre ++ post)) ∧
    (∀ es, (captureLoop quality es).2 ≠ CaptureState.waiting →
      ∃ e ∈ es, e.Ends quality ∨ e.Panics) := by
  obtain ⟨e, he⟩ := capture_fails S quality h
  have hturn : captureTurn quality (Selected.tick S writeErr) = ([], CaptureState.waiting) := by
    simp [captureTurn, he]
  refine ⟨⟨e, he⟩, hturn, fun pre post => captureLoop_skip quality _ post hturn pre, ?_⟩
  intro es hes
  obtain ⟨x, hx, hne⟩ := captureLoop_ends quality es hes
  exact ⟨x, hx, captureTurn_ends quality x hne⟩

theorem failed_capture_skips_tick_witness :
    (∃ e, captureAllMonitorsJPEG (sampleScreen [] none) 60 = .err e) ∧
    captureTurn 60 (Selected.tick
      (sampleScreen [displayBounds 0 0 2 1, displayBounds 2 0 2 1] (some (displayBounds 2 0 2 1)))
      none) = ([], CaptureState.waiting) :=
  ⟨(failed_capture_skips_tick (sampleScreen [] none) 60 none (Or.inl rfl)).1,
   (failed_capture_skips_tick
      (sampleScreen [displayBounds 0 0 2 1, displayBounds 2 0 2 1] (some (displayBounds 2 0 2 1)))
      60 none (Or.inr ⟨⟨_, rfl⟩, 1, by decide, "BitBlt failed", by rfl⟩)).2.1⟩

/-- C9 fails as stated: on a tick with two displays that span the whole range of
32-bit coordinates, the second of which cannot be captured, `image.NewRGBA` panics
before any capture is tried; `captureAllMonitorsJPEG` returns no error, and the
capture loop is ended for good, with no stop signal and no failed write, so that the
next tick writes no frame either. -/
theorem huge_union_ends_capture :
    hugeScreen.NumActiveDisplays = 2 ∧
    hugeScreen.CaptureRect (hugeScreen.GetDisplayBounds 1) = .error "BitBlt failed" ∧
    captureAllMonitorsJPEG hugeScreen 60 = .panicked Panic.hugeDimensions ∧
    captureTurn 60 (Selected.tick hugeScreen none) = ([], CaptureState.panicked) ∧
    captureLoop 60 [Selected.tick hugeScreen none,
        Selected.tick (sampleScreen [displayBounds 0 0 2 1] none) none] =
      ([], CaptureState.panicked) ∧
    captureLoop 60 [Selected.tick (sampleScreen [displayBounds 0 0 2 1] none) none] =
      ([[2, 1]], CaptureState.waiting) ∧
    ¬ (Selected.tick hugeScreen none).Ends 60 := by
  have hcap : captureAllMonitorsJPEG hugeScreen 60 = .panicked Panic.hugeDimensions := by rfl
  refine ⟨rfl, by rfl, hcap, by rfl, by rfl, by rfl, ?_⟩
  rintro ⟨⟨frame, hframe⟩, _⟩
  rw [hcap] at hframe
  cases hframe

/-! ## C10: the tick period -/

theorem tdiv_1000_of_pos (fps : Int) (h : 0 < fps) : Int.tdiv 1000 fps = 1000 / fps :=
  Int.tdiv_eq_ediv (by norm_num) (by omega)

theorem tdiv_1000_bounds (fps : Int) : -1000 ≤ Int.tdiv 1000 fps ∧ Int.tdiv 1000 fps ≤ 1000 := by
  have key : ∀ n : Int, 0 < n → 0 ≤ Int.tdiv 1000 n ∧ Int.tdiv 1000 n ≤ 1000 := by
    intro n hn
    refine ⟨Int.tdiv_nonneg (by norm_num) (by omega), ?_⟩
    rw [tdiv_1000_of_pos n hn]
    exact Int.ediv_le_self _ (by norm_num)
  rcases Int.lt_trichotomy fps 0 with h | h | h
  · obtain ⟨n, rfl⟩ : ∃ n : Int, fps = -n := ⟨-fps, by omega⟩
    rw [Int.tdiv_neg]
    have := key n (by omega)
    omega
  · subst h
    simp
  · have := key fps h
    omega

theorem tdiv_1000_pos_iff (fps : Int) : 0 < Int.tdiv 1000 fps ↔ 1 ≤ fps ∧ fps ≤ 1000 := by
  rcases Int.lt_trichotomy fps 0 with h0 | h0 | h0
  · obtain ⟨n, rfl⟩ : ∃ n : Int, fps = -n := ⟨-fps, by omega⟩
    rw [Int.tdiv_neg]
    have h1 : 0 ≤ Int.tdiv 1000 n := Int.tdiv_nonneg (by norm_num) (by omega)
    constructor <;> intro h <;> omega
  · subst h0
    simp
  · rw [tdiv_1000_of_pos fps h0]
    have := @Int.le_ediv_iff_mul_le 1 1000 fps h0
    constructor
    · intro h
      have := this.mp (by omega)
      omega
    · intro h
      have := this.mpr (by omega)
      omega

theorem tickPeriod_of_ne_zero (fps : Int) (h : fps ≠ 0) :
    tickPeriod fps = .ok (Int.tdiv 1000 fps * Millisecond) := by
  have hb := tdiv_1000_bounds fps
  unfold tickPeriod
  rw [if_neg h]
  rw [wrapInt64_of_fits (Int.tdiv 1000 fps) (by constructor <;> omega)]
  rw [wrapInt64_of_fits _ (by unfold Millisecond; constructor <;> omega)]

/-- C10: the tick period `1000/fps` milliseconds is defined and strictly positive
exactly when `1 ≤ fps ≤ 1000`; there it is `floor(1000/fps)` milliseconds and the
ticker accepts it (125 ms for the default 8); `fps = 0` divides by zero; a negative
`fps` or one above 1000 gives a period that is not positive, and `time.NewTicker`
panics on it. -/
theorem tickPeriod_defined_iff (fps : Int) :
    ((∃ d, tickPeriod fps = .ok d ∧ 0 < d) ↔ (1 ≤ fps ∧ fps ≤ 1000)) ∧
    ((1 ≤ fps ∧ fps ≤ 1000) →
      tickPeriod fps = .ok (⌊(1000 : ℚ) / (fps : ℚ)⌋ * Millisecond) ∧
      captureTicker fps = .ok (⌊(1000 : ℚ) / (fps : ℚ)⌋ * Millisecond)) ∧
    captureTicker 8 = .ok (125 * Millisecond) ∧
    tickPeriod 0 = .error Panic.divideByZero ∧
    captureTicker 0 = .error Panic.divideByZero ∧
    ((fps < 0 ∨ 1000 < fps) →
      (∃ d, tickPeriod fps = .ok d ∧ d ≤ 0) ∧
      captureTicker fps = .error Panic.nonPositiveInterval) := by
  refine ⟨?_, ?_, ?_, rfl, rfl, ?_⟩
  · constructor
    · rintro ⟨d, hd, hpos⟩
      have hne : fps ≠ 0 := by
        rintro rfl
        simp [tickPeriod] at hd
      rw [tickPeriod_of_ne_zero fps hne] at hd
      injection hd with hd
      subst hd
      apply (tdiv_1000_pos_iff fps).mp
      unfold Millisecond at hpos
      omega
    · intro h
      refine ⟨_, tickPeriod_of_ne_zero fps (by omega), ?_⟩
      have := (tdiv_1000_pos_iff fps).mpr h
      unfold Millisecond
      omega
  · intro h
    have hfloor : ⌊(1000 : ℚ) / (fps : ℚ)⌋ = Int.tdiv 1000 fps := by
      rw [tdiv_1000_of_pos fps (by omega)]
      obtain ⟨n, rfl⟩ : ∃ n : Nat, fps = n := ⟨fps.toNat, by omega⟩
      have := Rat.floor_intCast_div_natCast 1000 n
      simpa using this
    have hp := tickPeriod_of_ne_zero fps (by omega)
    have hpos := (tdiv_1000_pos_iff fps).mpr h
    rw [hfloor]
    refine ⟨hp, ?_⟩
    unfold captureTicker
    rw [hp]
    simp only [NewTicker]
    rw [if_neg]
    unfold Millisecond
    omega
  · rfl
  · intro h
    have hp := tickPeriod_of_ne_zero fps (by omega)
    have hnp : ¬ 0 < Int.tdiv 1000 fps := by
      rw [tdiv_1000_pos_iff]
      omega
    have hle : Int.tdiv 1000 fps * Millisecond ≤ 0 := by
      unfold Millisecond
      omega
    refine ⟨⟨_, hp, hle⟩, ?_⟩
    unfold captureTicker
    rw [hp]
    simp only [NewTicker]
    rw [if_pos hle]

theorem tickPeriod_defined_iff_witness :
    (1 ≤ (30 : Int) ∧ (30 : Int) ≤ 1000) ∧
    tickPeriod 30 = .ok (⌊(1000 : ℚ) / ((30 : Int) : ℚ)⌋ * Millisecond) ∧
    ((-5 : Int) < 0 ∨ (1000 : Int) < -5) ∧
    captureTicker (-5) = .error Panic.nonPositiveInterval :=
  ⟨by decide, ((tickPeriod_defined_iff 30).2.1 (by decide)).1, by decide,
   ((tickPeriod_defined_iff (-5)).2.2.2.2.2 (by decide)).2⟩

end Host
